import Mathlib

/-!
Verification of the resolvelib resolution engine (src/resolvelib/resolvers.py)
against its natural-language specification.

Shallow embedding conventions:

* Requirements, candidates and identifiers are opaque provider-owned values;
  they become type parameters R, C, K with decidable equality.
* The provider is a structure of total Lean functions: this models the
  hypothesis that every provider callback returns normally.  The reporter is
  not modelled: all of its methods are called purely for observation, their
  return values are ignored by the engine, and the claims under study all
  assume reporter callbacks return normally.
* Python dicts become insertion-ordered association lists: assigning to an
  existing key replaces the value in place, assigning a fresh key appends.
  `OrderedDict.popitem` removes the last entry, `dict.copy` is the identity on
  values.  Exceptions become `Except`; attribute errors and key errors that
  the source can actually raise are explicit error constructors.
* The Python statement `raise ResolutionImpossible(e.requirements + [requirement])`
  (resolvers.py line 228) reads the attribute `requirements` of a
  `RequirementsConflicted` instance; that class stores only `criterion`
  (lines 20-23), so evaluating the expression raises `AttributeError` in
  Python.  The embedding renders that path as the `attributeError` outcome.
-/

/-- Lookup in a Python dict modelled as an association list: the value at the
first (for nodup keys, the only) entry whose key matches. -/
def dictFind? {K V : Type} [DecidableEq K] : List (K × V) → K → Option V
  | [], _ => none
  | (k', v) :: rest, k => if k' = k then some v else dictFind? rest k

/-- Assignment `d[k] = v` on a Python dict: replace the value at an existing
key keeping its position, otherwise append the new entry at the end. -/
def dictInsert {K V : Type} [DecidableEq K] : List (K × V) → K → V → List (K × V)
  | [], k, v => [(k, v)]
  | (k', v') :: rest, k, v =>
    if k' = k then (k, v) :: rest else (k', v') :: dictInsert rest k v

/-- `d.update(entries)` on a Python dict: assign each entry in order. -/
def dictUpdateList {K V : Type} [DecidableEq K] : List (K × V) → List (K × V) → List (K × V)
  | d, [] => d
  | d, (k, v) :: rest => dictUpdateList (dictInsert d k v) rest

/-- `OrderedDict.popitem()` (LIFO order): remove and return the
most-recently-inserted entry; `none` when the mapping is empty (Python raises
KeyError there). -/
def odictPopLast {K V : Type} : List (K × V) → Option ((K × V) × List (K × V))
  | [] => none
  | x :: rest =>
    match odictPopLast rest with
    | none => some (x, [])
    | some (y, rest') => some (y, x :: rest')

/-- The keys of an association list, in insertion order. -/
def dictKeys {K V : Type} (l : List (K × V)) : List K := l.map Prod.fst

/-- A Python dict never holds two entries with the same key. -/
def NodupKeys {K V : Type} (l : List (K × V)) : Prop := (dictKeys l).Nodup

instance {E A : Type} [DecidableEq E] [DecidableEq A] : DecidableEq (Except E A) := fun a b =>
  match a, b with
  | .error e1, .error e2 =>
    if h : e1 = e2 then .isTrue (by rw [h]) else .isFalse (fun hc => h (by cases hc; rfl))
  | .error _, .ok _ => .isFalse (fun hc => by cases hc)
  | .ok _, .error _ => .isFalse (fun hc => by cases hc)
  | .ok a1, .ok a2 =>
    if h : a1 = a2 then .isTrue (by rw [h]) else .isFalse (fun hc => h (by cases hc; rfl))

/-- resolvers.py line 7: RequirementInformation = namedtuple(requirement, parent).
The parent is a candidate, or the root marker (modelled as `none`) for a
user-supplied requirement. -/
structure RequirementInformation (R C : Type) where
  requirement : R
  parent : Option C
deriving DecidableEq, Repr

/-- resolvers.py lines 26-48: the per-identifier constraint snapshot. -/
structure Criterion (R C : Type) where
  candidates : List C
  information : List (RequirementInformation R C)
  incompatibilities : List C
deriving DecidableEq, Repr

/-- The exceptions the engine can raise.  `requirementsConflicted` carries the
offending criterion (resolvers.py lines 20-23); `resolutionImpossible` carries
a list of requirements (line 96); `resolutionTooDeep` carries the round count
(line 102).  `attributeError` models the invalid attribute access
`e.requirements` at line 228; `keyError` models `OrderedDict.popitem` on an
empty mapping and dict subscription of a missing key (line 209-211);
`indexError` models `del states[-1]` on an empty list. -/
inductive PyErr (R C : Type) where
  | requirementsConflicted (criterion : Criterion R C)
  | resolutionImpossible (requirements : List R)
  | resolutionTooDeep (roundCount : Nat)
  | attributeError
  | keyError
  | indexError
deriving DecidableEq, Repr

/-- The provider contract (spec §6): a structure of total functions, modelling
callbacks that always return normally.  Preferences are modelled as naturals,
`min` on Python orderables being stable-first-minimum. -/
structure Provider (R C K : Type) where
  identify : R → K
  get_preference : Option C → List C → List (RequirementInformation R C) → Nat
  find_matches : R → List C
  is_satisfied_by : R → C → Bool
  get_dependencies : C → List R

/-- resolvers.py line 108: State = namedtuple(mapping, criteria).  `mapping`
is an OrderedDict K → C, `criteria` a dict K → Criterion; both are
insertion-ordered association lists here. -/
structure State (R C K : Type) where
  mapping : List (K × C)
  criteria : List (K × Criterion R C)
deriving DecidableEq, Repr

variable {R C K : Type} [DecidableEq C] [DecidableEq K]

/-- resolvers.py lines 50-58, `Criterion.from_requirement`: build the initial
criterion for a requirement.  The source performs no emptiness check: an empty
`find_matches` result is stored as-is. -/
def Criterion.from_requirement (p : Provider R C K) (requirement : R) (parent : Option C) :
    Criterion R C :=
  { candidates := p.find_matches requirement
  , information := [⟨requirement, parent⟩]
  , incompatibilities := [] }

/-- resolvers.py lines 66-78, `Criterion.merged_with`: append the new
requirement to the information, keep only candidates satisfying it, carry the
incompatibilities through; raise RequirementsConflicted(self) when the
filtered candidate list is empty. -/
def Criterion.merged_with (self : Criterion R C) (p : Provider R C K) (requirement : R)
    (parent : Option C) : Except (Criterion R C) (Criterion R C) :=
  let infos := self.information ++ [⟨requirement, parent⟩]
  let candidates := self.candidates.filter (fun c => p.is_satisfied_by requirement c)
  if candidates = [] then .error self
  else .ok ⟨candidates, infos, self.incompatibilities⟩

/-- resolvers.py lines 80-88, `Criterion.excluded_of`: append the candidate to
the incompatibilities, drop every candidate equal to it, keep the information;
raise RequirementsConflicted(self) when the remaining candidate list is
empty. -/
def Criterion.excluded_of (self : Criterion R C) (candidate : C) :
    Except (Criterion R C) (Criterion R C) :=
  let incompats := self.incompatibilities ++ [candidate]
  let candidates := self.candidates.filter (fun c => decide (c ≠ candidate))
  if candidates = [] then .error self
  else .ok ⟨candidates, self.information, incompats⟩

/-- resolvers.py lines 146-153, `Resolution._contribute_to_criteria`: fold one
requirement into the criteria map — a fresh criterion for a new identifier,
a merge otherwise.  A RequirementsConflicted from the merge propagates as the
error value (the conflicted criterion). -/
def contributeToCriteria (p : Provider R C K) (criteria : List (K × Criterion R C))
    (name : K) (requirement : R) (parent : Option C) :
    Except (Criterion R C) (List (K × Criterion R C)) :=
  match dictFind? criteria name with
  | none => .ok (dictInsert criteria name (Criterion.from_requirement p requirement parent))
  | some crit =>
    match crit.merged_with p requirement parent with
    | .error e => .error e
    | .ok merged => .ok (dictInsert criteria name merged)

/-- resolvers.py lines 222-228: contribute each root requirement in order,
with the root marker as parent.  On a RequirementsConflicted the source
evaluates `ResolutionImpossible(e.requirements + [requirement])`, and the
attribute access `e.requirements` raises AttributeError (RequirementsConflicted
stores only `criterion`), so that is what escapes. -/
def contributeRoots (p : Provider R C K) :
    List (K × Criterion R C) → List R → Except (PyErr R C) (List (K × Criterion R C))
  | criteria, [] => .ok criteria
  | criteria, requirement :: rest =>
    match contributeToCriteria p criteria (p.identify requirement) requirement none with
    | .error _ => .error .attributeError
    | .ok criteria' => contributeRoots p criteria' rest

/-- resolvers.py lines 165-173, `Resolution._is_current_pin_satisfying`: false
when the identifier has no pin (KeyError caught), otherwise whether the pin
satisfies every requirement recorded in the criterion. -/
def isCurrentPinSatisfying (p : Provider R C K) (st : State R C K) (name : K)
    (criterion : Criterion R C) : Bool :=
  match dictFind? st.mapping name with
  | none => false
  | some pin => criterion.information.all (fun i => p.is_satisfied_by i.requirement pin)

/-- resolvers.py lines 155-163, `Resolution._get_criterion_item_preference`. -/
def getCriterionItemPreference (p : Provider R C K) (st : State R C K)
    (item : K × Criterion R C) : Nat :=
  p.get_preference (dictFind? st.mapping item.1) item.2.candidates item.2.information

/-- Python `min(xs, key=f)`: the first element attaining the minimal key. -/
def pyMinBy {A : Type} (f : A → Nat) : A → List A → A
  | best, [] => best
  | best, x :: rest => if f x < f best then pyMinBy f x rest else pyMinBy f best rest

/-- The loop of resolvers.py lines 177-186: contribute each sub-dependency of
the candidate in provider order; on the first RequirementsConflicted execute
`criteria.clear(); criteria.update(backup)` — restore the snapshot — and
report failure. -/
def checkPinnabilityGo (p : Provider R C K) (candidate : C)
    (backup : List (K × Criterion R C)) :
    List R → List (K × Criterion R C) → Bool × List (K × Criterion R C)
  | [], criteria => (true, criteria)
  | subdep :: rest, criteria =>
    match contributeToCriteria p criteria (p.identify subdep) subdep (some candidate) with
    | .error _ => (false, dictUpdateList [] backup)
    | .ok criteria' => checkPinnabilityGo p candidate backup rest criteria'

/-- resolvers.py lines 175-186, `Resolution._check_pinnability`: snapshot the
criteria map, fold the candidate's sub-dependencies in, restore on conflict.
The state's mapping is read nowhere and written nowhere. -/
def checkPinnability (p : Provider R C K) (st : State R C K) (candidate : C) :
    Bool × State R C K :=
  let backup := st.criteria
  let res := checkPinnabilityGo p candidate backup (p.get_dependencies candidate) st.criteria
  (res.1, { st with criteria := res.2 })

/-- The loop of resolvers.py lines 189-194 over `reversed(criterion.candidates)`:
skip candidates whose pinnability check fails; at the first success remove any
prior pin for the identifier and insert the new pin at the end of the ordered
mapping. -/
def pinCriterionGo (p : Provider R C K) (name : K) :
    List C → State R C K → Bool × State R C K
  | [], st => (false, st)
  | candidate :: rest, st =>
    match checkPinnability p st candidate with
    | (false, st') => pinCriterionGo p name rest st'
    | (true, st') =>
      (true, { st' with
        mapping := st'.mapping.filter (fun kv => decide (kv.1 ≠ name)) ++ [(name, candidate)] })

/-- resolvers.py lines 188-198, `Resolution._pin_criterion`. -/
def pinCriterion (p : Provider R C K) (st : State R C K) (name : K)
    (criterion : Criterion R C) : Bool × State R C K :=
  pinCriterionGo p name criterion.candidates.reverse st

/-- The body of the while loop of resolvers.py lines 200-215 after the top
frame has been deleted: the argument list is the remaining stack.  When it is
empty, ResolutionImpossible carries the requirements of `criterion` — which,
in the source, is never reassigned on the conflict path (`except
RequirementsConflicted: continue` leaves the loop variable untouched), so the
payload is always the original trigger criterion's requirements.  On the
conflict path the next iteration deletes the just-mutated frame, so the
recursion proceeds directly on the deeper frames. -/
def backtrackGo : List (State R C K) → Criterion R C →
    Except (PyErr R C) (List (State R C K))
  | [], criterion =>
    .error (.resolutionImpossible (criterion.information.map (fun i => i.requirement)))
  | st :: deeper, criterion =>
    match odictPopLast st.mapping with
    | none => .error .keyError
    | some ((name, candidate), mapping') =>
      match dictFind? st.criteria name with
      | none => .error .keyError
      | some crit =>
        match crit.excluded_of candidate with
        | .error _ => backtrackGo deeper criterion
        | .ok narrowed =>
          .ok (⟨mapping', dictInsert st.criteria name narrowed⟩ :: deeper)

/-- resolvers.py lines 200-215, `Resolution._backtrack_to_last_workable_state`,
on a stack whose most recent frame comes first.  Every iteration starts with
`del self._states[-1]`. -/
def backtrack (states : List (State R C K)) (criterion : Criterion R C) :
    Except (PyErr R C) (List (State R C K)) :=
  match states with
  | [] => .error .indexError
  | _ :: rest => backtrackGo rest criterion

/-- The pending criteria of a round (resolvers.py lines 238-242): the items of
the criteria map whose current pin is not satisfying. -/
def pendingItems (p : Provider R C K) (st : State R C K) : List (K × Criterion R C) :=
  st.criteria.filter (fun kc => !(isCurrentPinSatisfying p st kc.1 kc.2))

/-- resolvers.py lines 232-260, the round loop of `Resolution.resolve`, with
the remaining rounds as fuel.  Each round pushes a copy of the current frame
(so the new top equals the frame below it), computes the pending criteria on
it, returns the accepted state when none is pending (the pushed frame is
dropped; the frame below has the same content), otherwise pins the most
preferred pending criterion and backtracks when pinning fails.  When the fuel
runs out the source raises ResolutionTooDeep(max_rounds). -/
def resolveRounds (p : Provider R C K) (maxRounds : Nat) :
    Nat → List (State R C K) → Except (PyErr R C) (State R C K)
  | 0, _ => .error (.resolutionTooDeep maxRounds)
  | _ + 1, [] => .error .indexError
  | fuel + 1, top :: rest =>
    match pendingItems p top with
    | [] => .ok top
    | item :: items =>
      let nc := pyMinBy (getCriterionItemPreference p top) item items
      match pinCriterion p top nc.1 nc.2 with
      | (true, st') => resolveRounds p maxRounds fuel (st' :: top :: rest)
      | (false, st') =>
        match backtrack (st' :: top :: rest) nc.2 with
        | .error e => .error e
        | .ok states' => resolveRounds p maxRounds fuel states'

/-- resolvers.py lines 217-260, `Resolution.resolve` on a fresh Resolution
(the `self._states` RuntimeError guard passes vacuously): push the initial
frame, contribute the roots, then run the rounds.  The returned state is the
frame `_build_result` is applied to. -/
def resolutionResolve (p : Provider R C K) (requirements : List R) (maxRounds : Nat) :
    Except (PyErr R C) (State R C K) :=
  match contributeRoots p [] requirements with
  | .error e => .error e
  | .ok criteria0 => resolveRounds p maxRounds maxRounds [⟨[], criteria0⟩]

/-- Modelled from the spec: `DirectedGraph` lives in resolvelib/structs.py,
which is not part of the provided sources.  Spec §3: a set of vertices (each
an identifier or the root marker, here `Option K` with `none` the root) and a
set of directed edges, with add(v), connect(u, v) (idempotent) and a
containment test. -/
structure DirectedGraph (V : Type) where
  vertices : List V
  edges : List (V × V)
deriving DecidableEq, Repr

/-- Modelled from the spec: a fresh graph has no vertices and no edges. -/
def DirectedGraph.empty {V : Type} : DirectedGraph V := ⟨[], []⟩

/-- Modelled from the spec: add a vertex (the vertex set gains v). -/
def DirectedGraph.add {V : Type} [DecidableEq V] (g : DirectedGraph V) (v : V) :
    DirectedGraph V :=
  if v ∈ g.vertices then g else { g with vertices := g.vertices ++ [v] }

/-- Modelled from the spec: add a directed edge, idempotently. -/
def DirectedGraph.connect {V : Type} [DecidableEq V] (g : DirectedGraph V) (u v : V) :
    DirectedGraph V :=
  if (u, v) ∈ g.edges then g else { g with edges := g.edges ++ [(u, v)] }

/-- resolvers.py lines 287-288: the reverse lookup `all_keys`, from a parent
value to the key it is pinned at, with the root marker mapping to the root
key `none`.  The source keys this dict by object identity, `id(v)`; candidate
values being opaque here, identity is modelled as value equality, and the
dict-comprehension rule that a later entry overwrites an earlier one becomes
a last-match lookup. -/
def lookupParentKey (mapping : List (K × C)) : Option C → Option (Option K)
  | none => some none
  | some c =>
    match mapping.reverse.find? (fun kv => kv.2 = c) with
    | none => none
    | some kv => some (some kv.1)

/-- The parent loop of `_has_route_to_root` (resolvers.py lines 268-279),
abstracted over the recursive call: parents with no reverse-lookup hit are
skipped; a parent already connected, or recursively connected, marks the key
connected. -/
def hasRouteParents (recur : Option K → List (Option K) → Bool × List (Option K))
    (mapping : List (K × C)) (k : K) :
    List (Option C) → List (Option K) → Bool × List (Option K)
  | [], connected => (false, connected)
  | pa :: rest, connected =>
    match lookupParentKey mapping pa with
    | none => hasRouteParents recur mapping k rest connected
    | some pkey =>
      if pkey ∈ connected then (true, (some k) :: connected)
      else
        match recur pkey connected with
        | (true, connected') => (true, (some k) :: connected')
        | (false, connected') => hasRouteParents recur mapping k rest connected'

/-- resolvers.py lines 263-279, `_has_route_to_root`, threading the memoised
`connected` set explicitly.  The source recurses with no depth bound and no
negative memoisation; the fuel counts nesting depth, and any run of the
source that terminates has depth at most the number of distinct criteria
keys, so a fuel of `criteria.length + 1` reproduces it. -/
def hasRouteToRoot (criteria : List (K × Criterion R C)) (mapping : List (K × C)) :
    Nat → Option K → List (Option K) → Bool × List (Option K)
  | 0, _, connected => (false, connected)
  | fuel + 1, key, connected =>
    if key ∈ connected then (true, connected)
    else
      match key with
      | none => (false, connected)
      | some k =>
        match dictFind? criteria k with
        | none => (false, connected)
        | some crit =>
          hasRouteParents (hasRouteToRoot criteria mapping fuel) mapping k
            (crit.information.map (fun i => i.parent)) connected

/-- The inner loop of resolvers.py lines 299-306: for each parent of a
reachable key, add the parent vertex when missing and connect parent to key. -/
def addParentEdges (mapping : List (K × C)) (key : K) :
    List (Option C) → DirectedGraph (Option K) → DirectedGraph (Option K)
  | [], g => g
  | pa :: rest, g =>
    match lookupParentKey mapping pa with
    | none => addParentEdges mapping key rest g
    | some pkey =>
      let g1 := if pkey ∈ g.vertices then g else g.add pkey
      addParentEdges mapping key rest (g1.connect pkey key)

/-- The loop of resolvers.py lines 294-306 over the criteria items: skip keys
with no route to root, otherwise add the key vertex and its parent edges,
threading the graph and the `connected` set. -/
def buildGo (criteria : List (K × Criterion R C)) (mapping : List (K × C)) :
    List (K × Criterion R C) → DirectedGraph (Option K) → List (Option K) →
    DirectedGraph (Option K) × List (Option K)
  | [], g, connected => (g, connected)
  | (key, crit) :: rest, g, connected =>
    match hasRouteToRoot criteria mapping (criteria.length + 1) (some key) connected with
    | (false, connected') => buildGo criteria mapping rest g connected'
    | (true, connected') =>
      let g1 := if (some key) ∈ g.vertices then g else g.add (some key)
      let g2 := addParentEdges mapping key (crit.information.map (fun i => i.parent)) g1
      buildGo criteria mapping rest g2 connected'

/-- resolvers.py lines 282, 308-312: the Result named tuple. -/
structure ResolveResult (R C K : Type) where
  mapping : List (K × C)
  graph : DirectedGraph (Option K)
  criteria : List (K × Criterion R C)
deriving DecidableEq, Repr

/-- resolvers.py lines 285-312, `_build_result`: reachability pruning from
the root marker.  The final mapping keeps the pinned entries whose key ended
up connected; the criteria map is returned unfiltered. -/
def buildResult (st : State R C K) : ResolveResult R C K :=
  let g0 := DirectedGraph.empty.add none
  let gc := buildGo st.criteria st.mapping st.criteria g0 [none]
  { mapping := st.mapping.filter (fun kv => decide ((some kv.1) ∈ gc.2))
  , graph := gc.1
  , criteria := st.criteria }

/-- resolvers.py lines 321-349, `Resolver.resolve`: run a fresh Resolution and
build the result from its final state. -/
def resolverResolve (p : Provider R C K) (requirements : List R) (maxRounds : Nat) :
    Except (PyErr R C) (ResolveResult R C K) :=
  match resolutionResolve p requirements maxRounds with
  | .error e => .error e
  | .ok st => .ok (buildResult st)

/-! ### Association-list dict lemmas -/

theorem dictFind?_eq_none_iff {V : Type} (l : List (K × V)) (k : K) :
    dictFind? l k = none ↔ k ∉ dictKeys l := by
  induction l with
  | nil => simp [dictFind?, dictKeys]
  | cons x rest ih =>
    obtain ⟨k', v⟩ := x
    by_cases h : k' = k
    · subst h
      simp [dictFind?, dictKeys]
    · have hkeys : dictKeys ((k', v) :: rest) = k' :: dictKeys rest := rfl
      rw [hkeys]
      simp only [dictFind?, if_neg h]
      rw [ih]
      constructor
      · intro h1 h2
        rcases List.mem_cons.mp h2 with h2 | h2
        · exact h h2.symm
        · exact h1 h2
      · intro h1 h2
        exact h1 (List.mem_cons_of_mem _ h2)

theorem mem_of_dictFind?_eq_some {V : Type} {l : List (K × V)} {k : K} {v : V}
    (h : dictFind? l k = some v) : (k, v) ∈ l := by
  induction l with
  | nil => simp [dictFind?] at h
  | cons x rest ih =>
    obtain ⟨k', v'⟩ := x
    by_cases hk : k' = k
    · subst hk
      simp [dictFind?] at h
      simp [h]
    · simp [dictFind?, hk] at h
      exact List.mem_cons_of_mem _ (ih h)

theorem dictFind?_eq_some_of_mem {V : Type} {l : List (K × V)} {k : K} {v : V}
    (hnd : NodupKeys l) (h : (k, v) ∈ l) : dictFind? l k = some v := by
  induction l with
  | nil => simp at h
  | cons x rest ih =>
    obtain ⟨k', v'⟩ := x
    rcases List.mem_cons.mp h with h1 | h1
    · obtain ⟨hk, hv⟩ := Prod.mk.injEq .. ▸ h1
      simp [dictFind?, hk.symm, hv]
    · have hk : k' ≠ k := by
        intro hkk
        subst hkk
        have : k' ∈ dictKeys rest := by
          simpa [dictKeys] using List.mem_map_of_mem Prod.fst h1
        exact (List.nodup_cons.mp hnd).1 this
      have hnd' : NodupKeys rest := (List.nodup_cons.mp hnd).2
      simp [dictFind?, hk, ih hnd' h1]

theorem dictFind?_insert_self {V : Type} (l : List (K × V)) (k : K) (v : V) :
    dictFind? (dictInsert l k v) k = some v := by
  induction l with
  | nil => simp [dictInsert, dictFind?]
  | cons x rest ih =>
    obtain ⟨k', v'⟩ := x
    by_cases h : k' = k <;> simp [dictInsert, dictFind?, h, ih]

theorem dictFind?_insert_ne {V : Type} (l : List (K × V)) {k k' : K} (v : V)
    (h : k' ≠ k) : dictFind? (dictInsert l k v) k' = dictFind? l k' := by
  have h2 : k ≠ k' := fun hc => h hc.symm
  induction l with
  | nil => simp [dictInsert, dictFind?, h2]
  | cons x rest ih =>
    obtain ⟨k'', v''⟩ := x
    by_cases hk : k'' = k
    · subst hk
      simp [dictInsert, dictFind?, h2]
    · by_cases hk2 : k'' = k'
      · subst hk2
        simp [dictInsert, dictFind?, hk]
      · simp [dictInsert, dictFind?, hk, hk2, ih]

theorem dictKeys_dictInsert {V : Type} (l : List (K × V)) (k : K) (v : V) :
    dictKeys (dictInsert l k v) = dictKeys l ∨
      (dictKeys (dictInsert l k v) = dictKeys l ++ [k] ∧ k ∉ dictKeys l) := by
  induction l with
  | nil => right; simp [dictInsert, dictKeys]
  | cons x rest ih =>
    obtain ⟨k', v'⟩ := x
    by_cases h : k' = k
    · left; simp [dictInsert, dictKeys, h]
    · rcases ih with ih | ⟨ih1, ih2⟩
      · left; simp [dictInsert, dictKeys, h] at ih ⊢; exact ih
      · right
        constructor
        · simp [dictInsert, dictKeys, h] at ih1 ⊢; exact ih1
        · simp [dictKeys] at ih2 ⊢
          exact ⟨fun hc => h hc.symm, ih2⟩

theorem nodupKeys_dictInsert {V : Type} (l : List (K × V)) (k : K) (v : V)
    (h : NodupKeys l) : NodupKeys (dictInsert l k v) := by
  rcases dictKeys_dictInsert l k v with heq | ⟨heq, hnm⟩
  · unfold NodupKeys; rw [heq]; exact h
  · unfold NodupKeys
    rw [heq]
    refine List.nodup_append.mpr ⟨h, List.nodup_singleton k, ?_⟩
    intro a ha
    simp
    intro hc; subst hc; exact hnm ha

theorem forall_mem_dictInsert {V : Type} {P : K × V → Prop} {l : List (K × V)} {k : K} {v : V}
    (hl : ∀ x ∈ l, P x) (hv : P (k, v)) : ∀ x ∈ dictInsert l k v, P x := by
  induction l with
  | nil => simpa [dictInsert]
  | cons y rest ih =>
    obtain ⟨k', v'⟩ := y
    by_cases h : k' = k
    · simp only [dictInsert, h, if_true]
      intro x hx
      rcases List.mem_cons.mp hx with h1 | h1
      · subst h1; exact hv
      · exact hl x (List.mem_cons_of_mem _ h1)
    · simp only [dictInsert, h, if_false]
      intro x hx
      rcases List.mem_cons.mp hx with h1 | h1
      · subst h1; exact hl _ (List.mem_cons_self ..)
      · exact ih (fun y hy => hl y (List.mem_cons_of_mem _ hy)) x h1

theorem dictInsert_of_not_mem {V : Type} {d : List (K × V)} {k : K} (v : V)
    (h : k ∉ dictKeys d) : dictInsert d k v = d ++ [(k, v)] := by
  induction d with
  | nil => simp [dictInsert]
  | cons x rest ih =>
    obtain ⟨k', v'⟩ := x
    have hkeys : dictKeys ((k', v') :: rest) = k' :: dictKeys rest := rfl
    rw [hkeys] at h
    have h1 : k' ≠ k := fun hc => h (hc ▸ List.mem_cons_self ..)
    have h2 : k ∉ dictKeys rest := fun hc => h (List.mem_cons_of_mem _ hc)
    simp [dictInsert, h1, ih h2]

theorem dictUpdateList_eq_append {V : Type} {l : List (K × V)} (hl : NodupKeys l) :
    ∀ d : List (K × V), (∀ k ∈ dictKeys l, k ∉ dictKeys d) →
      dictUpdateList d l = d ++ l := by
  induction l with
  | nil => intro d _; simp [dictUpdateList]
  | cons x rest ih =>
    intro d hdisj
    obtain ⟨k, v⟩ := x
    have hk : k ∉ dictKeys d := hdisj k (by simp [dictKeys])
    have hnd : NodupKeys rest := (List.nodup_cons.mp hl).2
    have step : dictUpdateList d ((k, v) :: rest) = dictUpdateList (d ++ [(k, v)]) rest := by
      simp [dictUpdateList, dictInsert_of_not_mem v hk]
    have hknotmem : k ∉ dictKeys rest := (List.nodup_cons.mp hl).1
    rw [step, ih hnd (d ++ [(k, v)]) ?_]
    · simp
    · intro k' hk'
      have hkeys : dictKeys ((k, v) :: rest) = k :: dictKeys rest := rfl
      have hnotd : k' ∉ dictKeys d := hdisj k' (hkeys ▸ List.mem_cons_of_mem _ hk')
      have hne : k' ≠ k := fun hc => hknotmem (hc ▸ hk')
      intro hc
      have happ : dictKeys (d ++ [(k, v)]) = dictKeys d ++ [k] := by
        simp [dictKeys]
      rw [happ] at hc
      rcases List.mem_append.mp hc with hc | hc
      · exact hnotd hc
      · exact hne (by simpa using hc)

/-- Restoring a snapshot by `criteria.clear(); criteria.update(backup)` gives
back exactly the snapshot. -/
theorem dictUpdateList_nil_restore {V : Type} {l : List (K × V)} (hl : NodupKeys l) :
    dictUpdateList [] l = l := by
  simpa using dictUpdateList_eq_append hl [] (by simp [dictKeys])

theorem odictPopLast_append {V : Type} (m : List (K × V)) (x : K × V) :
    odictPopLast (m ++ [x]) = some (x, m) := by
  induction m with
  | nil => simp [odictPopLast]
  | cons y rest ih => simp [odictPopLast, ih]

theorem odictPopLast_cons {V : Type} (a : K × V) (l : List (K × V)) :
    odictPopLast (a :: l) =
      match odictPopLast l with
      | none => some (a, [])
      | some (y, rest') => some (y, a :: rest') := rfl

theorem odictPopLast_ne_none {V : Type} (a : K × V) (l : List (K × V)) :
    odictPopLast (a :: l) ≠ none := by
  induction l generalizing a with
  | nil => simp [odictPopLast]
  | cons b rest ih =>
    rw [odictPopLast_cons]
    cases hb : odictPopLast (b :: rest) with
    | none => exact absurd hb (ih b)
    | some pr =>
      obtain ⟨y, r⟩ := pr
      simp

theorem odictPopLast_eq_some {V : Type} {l m : List (K × V)} {x : K × V}
    (h : odictPopLast l = some (x, m)) : l = m ++ [x] := by
  induction l generalizing m with
  | nil => simp [odictPopLast] at h
  | cons y rest ih =>
    cases rest with
    | nil =>
      simp [odictPopLast] at h
      simp [h.1, h.2]
    | cons z rest' =>
      rw [odictPopLast_cons] at h
      cases hrec : odictPopLast (z :: rest') with
      | none => exact absurd hrec (odictPopLast_ne_none z rest')
      | some pr =>
        obtain ⟨y', m'⟩ := pr
        rw [hrec] at h
        simp only [Option.some.injEq, Prod.mk.injEq] at h
        obtain ⟨h1, h2⟩ := h
        subst h1
        rw [← h2]
        simp [ih hrec]

/-! ### Characterisation of the Criterion operations -/

theorem merged_with_ok {p : Provider R C K} {self res : Criterion R C} {r : R} {pa : Option C}
    (h : self.merged_with p r pa = .ok res) :
    res.candidates = self.candidates.filter (fun c => p.is_satisfied_by r c) ∧
    res.information = self.information ++ [⟨r, pa⟩] ∧
    res.incompatibilities = self.incompatibilities := by
  simp only [Criterion.merged_with] at h
  split at h
  · cases h
  · cases h
    exact ⟨rfl, rfl, rfl⟩

theorem merged_with_error_iff {p : Provider R C K} {self e : Criterion R C} {r : R}
    {pa : Option C} :
    self.merged_with p r pa = .error e ↔
      (self.candidates.filter (fun c => p.is_satisfied_by r c) = [] ∧ e = self) := by
  simp only [Criterion.merged_with]
  split
  next hc => simp [hc, eq_comm]
  next hc => simp [hc]

theorem excluded_of_ok {self res : Criterion R C} {cand : C}
    (h : self.excluded_of cand = .ok res) :
    res.candidates = self.candidates.filter (fun c => decide (c ≠ cand)) ∧
    res.information = self.information ∧
    res.incompatibilities = self.incompatibilities ++ [cand] := by
  simp only [Criterion.excluded_of] at h
  split at h
  · cases h
  · cases h
    exact ⟨rfl, rfl, rfl⟩

theorem excluded_of_error_iff {self e : Criterion R C} {cand : C} :
    self.excluded_of cand = .error e ↔
      (self.candidates.filter (fun c => decide (c ≠ cand)) = [] ∧ e = self) := by
  simp only [Criterion.excluded_of]
  split
  next hc =>
    constructor
    · intro h
      cases h
      exact ⟨hc, rfl⟩
    · intro h
      rw [h.2]
  next hc =>
    constructor
    · intro h
      cases h
    · intro h
      exact absurd h.1 hc

/-! ### Resolution invariants -/

/-- The disjointness property of one criterion: no admissible candidate is a
known incompatibility. -/
def CritDisjoint (crit : Criterion R C) : Prop :=
  ∀ c ∈ crit.candidates, c ∉ crit.incompatibilities

instance (crit : Criterion R C) : Decidable (CritDisjoint crit) :=
  inferInstanceAs (Decidable (∀ c ∈ crit.candidates, c ∉ crit.incompatibilities))

/-- The invariant of a criteria map: dict keys are unique and every stored
criterion is disjoint. -/
def CriteriaInv (criteria : List (K × Criterion R C)) : Prop :=
  NodupKeys criteria ∧ ∀ kc ∈ criteria, CritDisjoint kc.2

/-- Between two criteria maps: every key present in the first is present in
the second with unchanged incompatibilities.  This is what requirement
contributions guarantee: merging narrows candidates and extends information
but never touches incompatibilities. -/
def IncompatsPreserved (c1 c2 : List (K × Criterion R C)) : Prop :=
  ∀ k crit, dictFind? c1 k = some crit →
    ∃ crit', dictFind? c2 k = some crit' ∧
      crit'.incompatibilities = crit.incompatibilities

/-- The state invariant: the criteria map is well formed, the pin mapping has
unique keys, and every pinned candidate has a criterion whose
incompatibilities do not contain it. -/
def StateInv (st : State R C K) : Prop :=
  CriteriaInv st.criteria ∧ NodupKeys st.mapping ∧
  ∀ kc ∈ st.mapping, ∃ crit, dictFind? st.criteria kc.1 = some crit ∧
    kc.2 ∉ crit.incompatibilities

/-- Every frame of the state stack satisfies the state invariant. -/
def StackInv (states : List (State R C K)) : Prop := ∀ st ∈ states, StateInv st

theorem incompatsPreserved_refl (a : List (K × Criterion R C)) : IncompatsPreserved a a :=
  fun _ crit hk => ⟨crit, hk, rfl⟩

theorem incompatsPreserved_trans {a b c : List (K × Criterion R C)}
    (h1 : IncompatsPreserved a b) (h2 : IncompatsPreserved b c) : IncompatsPreserved a c := by
  intro k crit hk
  obtain ⟨crit1, hf1, he1⟩ := h1 k crit hk
  obtain ⟨crit2, hf2, he2⟩ := h2 k crit1 hf1
  exact ⟨crit2, hf2, he2.trans he1⟩

theorem critDisjoint_from_requirement (p : Provider R C K) (r : R) (pa : Option C) :
    CritDisjoint (Criterion.from_requirement p r pa) := by
  intro c _
  simp [Criterion.from_requirement]

theorem critDisjoint_merged {p : Provider R C K} {self res : Criterion R C} {r : R}
    {pa : Option C} (hd : CritDisjoint self) (h : self.merged_with p r pa = .ok res) :
    CritDisjoint res := by
  obtain ⟨hc, _, hi⟩ := merged_with_ok h
  intro c hcand
  rw [hc] at hcand
  rw [hi]
  exact hd c (List.mem_filter.mp hcand).1

theorem critDisjoint_excluded {self res : Criterion R C} {cand : C}
    (hd : CritDisjoint self) (h : self.excluded_of cand = .ok res) : CritDisjoint res := by
  obtain ⟨hc, _, hi⟩ := excluded_of_ok h
  intro c hcand
  rw [hc] at hcand
  rw [hi]
  obtain ⟨hmem, hne⟩ := List.mem_filter.mp hcand
  have hne' : c ≠ cand := of_decide_eq_true hne
  intro hmem2
  rcases List.mem_append.mp hmem2 with h2 | h2
  · exact hd c hmem h2
  · exact hne' (by simpa using h2)

/-! ### Invariant preservation through the engine -/

theorem contributeToCriteria_not_found {p : Provider R C K}
    {criteria : List (K × Criterion R C)} {name : K} {r : R} {pa : Option C}
    (hfind : dictFind? criteria name = none) :
    contributeToCriteria p criteria name r pa =
      .ok (dictInsert criteria name (Criterion.from_requirement p r pa)) := by
  simp only [contributeToCriteria, hfind]

theorem contributeToCriteria_found_ok {p : Provider R C K}
    {criteria : List (K × Criterion R C)} {name : K} {r : R} {pa : Option C}
    {crit merged : Criterion R C}
    (hfind : dictFind? criteria name = some crit)
    (hm : crit.merged_with p r pa = .ok merged) :
    contributeToCriteria p criteria name r pa = .ok (dictInsert criteria name merged) := by
  simp only [contributeToCriteria, hfind, hm]

theorem contributeToCriteria_found_error {p : Provider R C K}
    {criteria : List (K × Criterion R C)} {name : K} {r : R} {pa : Option C}
    {crit e : Criterion R C}
    (hfind : dictFind? criteria name = some crit)
    (hm : crit.merged_with p r pa = .error e) :
    contributeToCriteria p criteria name r pa = .error e := by
  simp only [contributeToCriteria, hfind, hm]

theorem contribute_criteriaInv {p : Provider R C K} {criteria criteria' : List (K × Criterion R C)}
    {name : K} {r : R} {pa : Option C} (hinv : CriteriaInv criteria)
    (h : contributeToCriteria p criteria name r pa = .ok criteria') :
    CriteriaInv criteria' ∧ IncompatsPreserved criteria criteria' := by
  obtain ⟨hnd, hall⟩ := hinv
  cases hfind : dictFind? criteria name with
  | none =>
    rw [contributeToCriteria_not_found hfind] at h
    simp only [Except.ok.injEq] at h
    subst h
    refine ⟨⟨nodupKeys_dictInsert _ _ _ hnd,
      forall_mem_dictInsert hall (critDisjoint_from_requirement p r pa)⟩, ?_⟩
    intro k crit hk
    by_cases hkn : k = name
    · subst hkn
      rw [hfind] at hk
      cases hk
    · refine ⟨crit, ?_, rfl⟩
      rw [dictFind?_insert_ne _ _ hkn]
      exact hk
  | some crit =>
    cases hm : crit.merged_with p r pa with
    | error e =>
      rw [contributeToCriteria_found_error hfind hm] at h
      cases h
    | ok merged =>
      rw [contributeToCriteria_found_ok hfind hm] at h
      simp only [Except.ok.injEq] at h
      subst h
      have hdisj : CritDisjoint crit := hall _ (mem_of_dictFind?_eq_some hfind)
      refine ⟨⟨nodupKeys_dictInsert _ _ _ hnd,
        forall_mem_dictInsert hall (critDisjoint_merged hdisj hm)⟩, ?_⟩
      intro k crit2 hk
      by_cases hkn : k = name
      · subst hkn
        rw [hfind] at hk
        cases hk
        exact ⟨merged, dictFind?_insert_self .., (merged_with_ok hm).2.2⟩
      · refine ⟨crit2, ?_, rfl⟩
        rw [dictFind?_insert_ne _ _ hkn]
        exact hk

theorem checkPinnabilityGo_inv {p : Provider R C K} {cand : C}
    {backup : List (K × Criterion R C)} (hb : CriteriaInv backup) :
    ∀ (deps : List R) (criteria : List (K × Criterion R C)),
      CriteriaInv criteria → IncompatsPreserved backup criteria →
      CriteriaInv (checkPinnabilityGo p cand backup deps criteria).2 ∧
      IncompatsPreserved backup (checkPinnabilityGo p cand backup deps criteria).2 := by
  intro deps
  induction deps with
  | nil =>
    intro criteria h1 h2
    exact ⟨h1, h2⟩
  | cons d rest ih =>
    intro criteria h1 h2
    simp only [checkPinnabilityGo]
    split
    next e heq =>
      rw [dictUpdateList_nil_restore hb.1]
      exact ⟨hb, incompatsPreserved_refl backup⟩
    next criteria' heq =>
      obtain ⟨h1', h2'⟩ := contribute_criteriaInv h1 heq
      exact ih criteria' h1' (incompatsPreserved_trans h2 h2')

theorem checkPinnability_inv {p : Provider R C K} {st : State R C K} {cand : C}
    (hinv : StateInv st) :
    StateInv (checkPinnability p st cand).2 ∧
    (checkPinnability p st cand).2.mapping = st.mapping ∧
    IncompatsPreserved st.criteria (checkPinnability p st cand).2.criteria := by
  obtain ⟨hci, hmnd, hpins⟩ := hinv
  have hgo : CriteriaInv
      (checkPinnabilityGo p cand st.criteria (p.get_dependencies cand) st.criteria).2 ∧
      IncompatsPreserved st.criteria
        (checkPinnabilityGo p cand st.criteria (p.get_dependencies cand) st.criteria).2 :=
    checkPinnabilityGo_inv hci (p.get_dependencies cand) st.criteria hci
      (incompatsPreserved_refl _)
  refine ⟨⟨hgo.1, hmnd, ?_⟩, rfl, hgo.2⟩
  intro kc hkc
  obtain ⟨crit, hf, hni⟩ := hpins kc hkc
  obtain ⟨crit', hf', he⟩ := hgo.2 kc.1 crit hf
  refine ⟨crit', hf', ?_⟩
  rw [he]
  exact hni

theorem nodupKeys_filter_ne {l : List (K × C)} (hnd : NodupKeys l) (name : K) :
    NodupKeys (l.filter (fun kv => decide (kv.1 ≠ name))) := by
  have hsub : List.Sublist (dictKeys (l.filter (fun kv => decide (kv.1 ≠ name)))) (dictKeys l) :=
    List.Sublist.map Prod.fst (List.filter_sublist l)
  exact hsub.nodup hnd

theorem not_mem_keys_filter_ne (l : List (K × C)) (name : K) :
    name ∉ dictKeys (l.filter (fun kv => decide (kv.1 ≠ name))) := by
  intro hmem
  obtain ⟨kv, hkv, hfst⟩ := List.mem_map.mp hmem
  have := (List.mem_filter.mp hkv).2
  rw [hfst] at this
  simp at this

theorem nodupKeys_pin {l : List (K × C)} (hnd : NodupKeys l) (name : K) (cand : C) :
    NodupKeys (l.filter (fun kv => decide (kv.1 ≠ name)) ++ [(name, cand)]) := by
  have hkeys : dictKeys (l.filter (fun kv => decide (kv.1 ≠ name)) ++ [(name, cand)]) =
      dictKeys (l.filter (fun kv => decide (kv.1 ≠ name))) ++ [name] := by
    simp [dictKeys]
  unfold NodupKeys
  rw [hkeys]
  refine List.nodup_append.mpr ⟨nodupKeys_filter_ne hnd name, List.nodup_singleton name, ?_⟩
  intro a ha
  simp only [List.mem_singleton]
  intro hc
  rw [hc] at ha
  exact not_mem_keys_filter_ne l name ha

theorem pinCriterionGo_inv {p : Provider R C K} {name : K}
    {origCriteria : List (K × Criterion R C)} {origCrit : Criterion R C}
    (hfind0 : dictFind? origCriteria name = some origCrit)
    (hdisj0 : CritDisjoint origCrit) :
    ∀ (cands : List C) (st : State R C K),
      StateInv st →
      (∀ c ∈ cands, c ∈ origCrit.candidates) →
      IncompatsPreserved origCriteria st.criteria →
      StateInv (pinCriterionGo p name cands st).2 := by
  intro cands
  induction cands with
  | nil =>
    intro st hst _ _
    exact hst
  | cons cand rest ih =>
    intro st hst hsub hpre
    have hck : StateInv (checkPinnability p st cand).2 ∧
        (checkPinnability p st cand).2.mapping = st.mapping ∧
        IncompatsPreserved st.criteria (checkPinnability p st cand).2.criteria :=
      checkPinnability_inv hst
    obtain ⟨hst', hmap', hpre'⟩ := hck
    simp only [pinCriterionGo]
    split
    next st2 heq =>
      rw [heq] at hst' hpre'
      exact ih st2 hst' (fun c hc => hsub c (List.mem_cons_of_mem _ hc))
        (incompatsPreserved_trans hpre hpre')
    next st2 heq =>
      rw [heq] at hst' hmap' hpre'
      obtain ⟨hci2, hmnd2, hpins2⟩ := hst'
      refine ⟨hci2, ?_, ?_⟩
      · rw [hmap']
        exact nodupKeys_pin hst.2.1 name cand
      · intro kc hkc
        rcases List.mem_append.mp hkc with h1 | h1
        · exact hpins2 kc (List.mem_of_mem_filter h1)
        · have hkc2 : kc = (name, cand) := by simpa using h1
          subst hkc2
          obtain ⟨crit', hf', he⟩ :=
            incompatsPreserved_trans hpre hpre' name origCrit hfind0
          refine ⟨crit', hf', ?_⟩
          rw [he]
          exact hdisj0 cand (hsub cand (List.mem_cons_self ..))

theorem pinCriterion_inv {p : Provider R C K} {st : State R C K} {name : K}
    {criterion : Criterion R C} (hst : StateInv st)
    (hfind : dictFind? st.criteria name = some criterion) :
    StateInv (pinCriterion p st name criterion).2 := by
  have hdisj : CritDisjoint criterion := hst.1.2 _ (mem_of_dictFind?_eq_some hfind)
  exact pinCriterionGo_inv hfind hdisj criterion.candidates.reverse st hst
    (fun c hc => List.mem_reverse.mp hc) (incompatsPreserved_refl _)

theorem backtrackGo_inv {criterion : Criterion R C} :
    ∀ {states states' : List (State R C K)},
      StackInv states → backtrackGo states criterion = .ok states' → StackInv states' := by
  intro states
  induction states with
  | nil =>
    intro states' _ h
    cases h
  | cons st deeper ih =>
    intro states' hstack h
    simp only [backtrackGo] at h
    cases hpop : odictPopLast st.mapping with
    | none =>
      simp only [hpop] at h
      cases h
    | some pr =>
      obtain ⟨⟨name, cand⟩, mapping'⟩ := pr
      simp only [hpop] at h
      cases hfind : dictFind? st.criteria name with
      | none =>
        simp only [hfind] at h
        cases h
      | some crit =>
        simp only [hfind] at h
        cases hexc : crit.excluded_of cand with
        | error e =>
          simp only [hexc] at h
          exact ih (fun s hs => hstack s (List.mem_cons_of_mem _ hs)) h
        | ok narrowed =>
          simp only [hexc, Except.ok.injEq] at h
          subst h
          intro s hs
          rcases List.mem_cons.mp hs with h1 | h1
          · subst h1
            obtain ⟨⟨hnd, hall⟩, hmnd, hpins⟩ := hstack st (List.mem_cons_self ..)
            have hsplit : st.mapping = mapping' ++ [(name, cand)] := odictPopLast_eq_some hpop
            have hmkeys : dictKeys st.mapping = dictKeys mapping' ++ [name] := by
              rw [hsplit]
              simp [dictKeys]
            have hmnd' : (dictKeys mapping' ++ [name]).Nodup := by
              rw [← hmkeys]
              exact hmnd
            have hnodup' : NodupKeys mapping' := (List.nodup_append.mp hmnd').1
            have hnameout : name ∉ dictKeys mapping' := by
              intro hc
              exact (List.nodup_append.mp hmnd').2.2 hc (List.mem_singleton_self name)
            refine ⟨⟨nodupKeys_dictInsert _ _ _ hnd,
              forall_mem_dictInsert hall
                (critDisjoint_excluded (hall _ (mem_of_dictFind?_eq_some hfind)) hexc)⟩,
              hnodup', ?_⟩
            intro kc hkc
            have hkcmem : kc ∈ st.mapping := by
              rw [hsplit]
              exact List.mem_append_left _ hkc
            obtain ⟨crit0, hf0, hni0⟩ := hpins kc hkcmem
            have hkne : kc.1 ≠ name := by
              intro hc
              exact hnameout (hc ▸ List.mem_map_of_mem Prod.fst hkc)
            refine ⟨crit0, ?_, hni0⟩
            rw [dictFind?_insert_ne _ _ hkne]
            exact hf0
          · exact hstack s (List.mem_cons_of_mem _ h1)

theorem backtrack_inv {states states' : List (State R C K)} {criterion : Criterion R C}
    (h : StackInv states) (hb : backtrack states criterion = .ok states') :
    StackInv states' := by
  cases states with
  | nil => cases hb
  | cons f rest =>
    exact backtrackGo_inv (fun s hs => h s (List.mem_cons_of_mem _ hs)) hb

theorem pyMinBy_mem {A : Type} (f : A → Nat) :
    ∀ (l : List A) (x : A), pyMinBy f x l ∈ x :: l := by
  intro l
  induction l with
  | nil =>
    intro x
    simp [pyMinBy]
  | cons y rest ih =>
    intro x
    simp only [pyMinBy]
    split
    · rcases List.mem_cons.mp (ih y) with h | h
      · rw [h]
        simp
      · simp [h]
    · rcases List.mem_cons.mp (ih x) with h | h
      · rw [h]
        simp
      · simp [h]

theorem resolveRounds_ok {p : Provider R C K} {maxRounds : Nat} :
    ∀ {fuel : Nat} {states : List (State R C K)} {st : State R C K},
      StackInv states → resolveRounds p maxRounds fuel states = .ok st →
      StateInv st ∧ pendingItems p st = [] := by
  intro fuel
  induction fuel with
  | zero =>
    intro states st _ h
    cases h
  | succ n ih =>
    intro states st hstack h
    cases states with
    | nil => cases h
    | cons top rest =>
      simp only [resolveRounds] at h
      cases hpend : pendingItems p top with
      | nil =>
        simp only [hpend, Except.ok.injEq] at h
        subst h
        exact ⟨hstack top (List.mem_cons_self ..), hpend⟩
      | cons item items =>
        simp only [hpend] at h
        have htop : StateInv top := hstack top (List.mem_cons_self ..)
        have hmem : pyMinBy (getCriterionItemPreference p top) item items ∈ top.criteria := by
          have h1 := pyMinBy_mem (getCriterionItemPreference p top) items item
          rw [← hpend] at h1
          exact List.mem_of_mem_filter h1
        have hfind : dictFind? top.criteria
            (pyMinBy (getCriterionItemPreference p top) item items).1 =
            some (pyMinBy (getCriterionItemPreference p top) item items).2 := by
          apply dictFind?_eq_some_of_mem htop.1.1
          simpa using hmem
        have hpininv : StateInv (pinCriterion p top
            (pyMinBy (getCriterionItemPreference p top) item items).1
            (pyMinBy (getCriterionItemPreference p top) item items).2).2 :=
          pinCriterion_inv htop hfind
        split at h
        next st2 hpin =>
          rw [hpin] at hpininv
          exact ih (fun s hs => by
            rcases List.mem_cons.mp hs with h1 | h1
            · exact h1 ▸ hpininv
            · exact hstack s h1) h
        next st2 hpin =>
          rw [hpin] at hpininv
          split at h
          next e hb => cases h
          next states2 hb =>
            have hstack2 : StackInv states2 := by
              refine backtrack_inv ?_ hb
              intro s hs
              rcases List.mem_cons.mp hs with h1 | h1
              · exact h1 ▸ hpininv
              · exact hstack s h1
            exact ih hstack2 h

theorem contributeRoots_inv {p : Provider R C K} :
    ∀ {reqs : List R} {criteria criteria' : List (K × Criterion R C)},
      CriteriaInv criteria → contributeRoots p criteria reqs = .ok criteria' →
      CriteriaInv criteria' := by
  intro reqs
  induction reqs with
  | nil =>
    intro criteria criteria' hinv h
    simp only [contributeRoots, Except.ok.injEq] at h
    subst h
    exact hinv
  | cons r rest ih =>
    intro criteria criteria' hinv h
    simp only [contributeRoots] at h
    cases hc : contributeToCriteria p criteria (p.identify r) r none with
    | error e =>
      simp only [hc] at h
      cases h
    | ok criteria1 =>
      simp only [hc] at h
      exact ih (contribute_criteriaInv hinv hc).1 h

theorem criteriaInv_nil : CriteriaInv ([] : List (K × Criterion R C)) := by
  constructor
  · simp [NodupKeys, dictKeys]
  · simp

theorem resolutionResolve_ok {p : Provider R C K} {reqs : List R} {mr : Nat}
    {st : State R C K} (h : resolutionResolve p reqs mr = .ok st) :
    StateInv st ∧ pendingItems p st = [] := by
  unfold resolutionResolve at h
  cases hr : contributeRoots p [] reqs with
  | error e =>
    rw [hr] at h
    cases h
  | ok criteria0 =>
    rw [hr] at h
    have hci : CriteriaInv criteria0 := contributeRoots_inv criteriaInv_nil hr
    have hstack : StackInv [⟨[], criteria0⟩] := by
      intro s hs
      have hs' : s = (⟨[], criteria0⟩ : State R C K) := by simpa using hs
      subst hs'
      refine ⟨hci, by simp [NodupKeys, dictKeys], by simp⟩
    exact resolveRounds_ok hstack h

/-- When the loop of `_check_pinnability` reports failure, the criteria it
leaves behind are the cleared-and-updated snapshot. -/
theorem checkPinnabilityGo_false {p : Provider R C K} {cand : C}
    {backup : List (K × Criterion R C)} :
    ∀ (deps : List R) (criteria : List (K × Criterion R C)),
      (checkPinnabilityGo p cand backup deps criteria).1 = false →
      (checkPinnabilityGo p cand backup deps criteria).2 = dictUpdateList [] backup := by
  intro deps
  induction deps with
  | nil =>
    intro criteria h
    cases h
  | cons d rest ih =>
    intro criteria h
    simp only [checkPinnabilityGo] at h ⊢
    cases hc : contributeToCriteria p criteria (p.identify d) d (some cand) with
    | error e =>
      simp only [hc]
    | ok criteria' =>
      simp only [hc] at h ⊢
      exact ih criteria' h

/-! ### The claims -/

/-- C5: merged_with returns a new Criterion whose information is the original
information with the new pair appended, whose candidates are exactly the
original candidates satisfying the requirement in the original order, and
whose incompatibilities are unchanged; it fails with RequirementsConflicted
carrying the original criterion exactly when the filtered candidate list is
empty.  The original criterion is a pure value here, so it is not mutated in
either case. -/
theorem C5_merged_with (p : Provider R C K) (self : Criterion R C) (r : R) (pa : Option C) :
    (∀ res, self.merged_with p r pa = .ok res →
      res.information = self.information ++ [⟨r, pa⟩] ∧
      res.candidates = self.candidates.filter (fun c => p.is_satisfied_by r c) ∧
      List.Sublist res.candidates self.candidates ∧
      res.incompatibilities = self.incompatibilities) ∧
    ((∃ e, self.merged_with p r pa = .error e) ↔
      self.candidates.filter (fun c => p.is_satisfied_by r c) = []) ∧
    (∀ e, self.merged_with p r pa = .error e → e = self) := by
  refine ⟨?_, ?_, ?_⟩
  · intro res h
    obtain ⟨h1, h2, h3⟩ := merged_with_ok h
    refine ⟨h2, h1, ?_, h3⟩
    rw [h1]
    exact List.filter_sublist _
  · constructor
    · rintro ⟨e, he⟩
      exact (merged_with_error_iff.mp he).1
    · intro hf
      exact ⟨self, merged_with_error_iff.mpr ⟨hf, rfl⟩⟩
  · intro e he
    exact (merged_with_error_iff.mp he).2

/-- C6: excluded_of returns a new Criterion whose incompatibilities are the
original ones with the candidate appended, whose candidates are the original
candidates with every occurrence of the excluded candidate removed and the
order otherwise preserved, and whose information is unchanged; it fails with
RequirementsConflicted carrying the original criterion exactly when the
remaining candidate list is empty.  The original criterion is a pure value
here, so it is not mutated. -/
theorem C6_excluded_of (self : Criterion R C) (cand : C) :
    (∀ res, self.excluded_of cand = .ok res →
      res.incompatibilities = self.incompatibilities ++ [cand] ∧
      res.candidates = self.candidates.filter (fun c => decide (c ≠ cand)) ∧
      List.Sublist res.candidates self.candidates ∧
      (∀ c ∈ res.candidates, c ≠ cand) ∧
      res.information = self.information) ∧
    ((∃ e, self.excluded_of cand = .error e) ↔
      self.candidates.filter (fun c => decide (c ≠ cand)) = []) ∧
    (∀ e, self.excluded_of cand = .error e → e = self) := by
  refine ⟨?_, ?_, ?_⟩
  · intro res h
    obtain ⟨h1, h2, h3⟩ := excluded_of_ok h
    refine ⟨h3, h1, ?_, ?_, h2⟩
    · rw [h1]
      exact List.filter_sublist _
    · intro c hc
      rw [h1] at hc
      exact of_decide_eq_true (List.mem_filter.mp hc).2
  · constructor
    · rintro ⟨e, he⟩
      exact (excluded_of_error_iff.mp he).1
    · intro hf
      exact ⟨self, excluded_of_error_iff.mpr ⟨hf, rfl⟩⟩
  · intro e he
    exact (excluded_of_error_iff.mp he).2

/-- C7: check_pinnability never alters the state's mapping, and when it
returns false (some sub-dependency contribution conflicted) the criteria map
is restored exactly to its value before the call; the snapshot-restore by
clear-and-update is exact for any well-formed dict. -/
theorem C7_check_pinnability (p : Provider R C K) (st : State R C K) (cand : C) :
    (checkPinnability p st cand).2.mapping = st.mapping ∧
    (NodupKeys st.criteria → (checkPinnability p st cand).1 = false →
      (checkPinnability p st cand).2.criteria = st.criteria) := by
  refine ⟨rfl, ?_⟩
  intro hnd hfalse
  have hfalse2 : (checkPinnabilityGo p cand st.criteria
      (p.get_dependencies cand) st.criteria).1 = false := hfalse
  have hgo : (checkPinnabilityGo p cand st.criteria
      (p.get_dependencies cand) st.criteria).2 = dictUpdateList [] st.criteria :=
    checkPinnabilityGo_false (p.get_dependencies cand) st.criteria hfalse2
  calc (checkPinnability p st cand).2.criteria
      = (checkPinnabilityGo p cand st.criteria (p.get_dependencies cand) st.criteria).2 := rfl
    _ = dictUpdateList [] st.criteria := hgo
    _ = st.criteria := dictUpdateList_nil_restore hnd

/-- C9: incompatibilities and candidates of a Criterion are disjoint: this
holds for criteria produced by from_requirement, is preserved by merged_with
and excluded_of, and consequently holds for every criterion stored in the
criteria map of a successfully returned result. -/
theorem C9_disjointness_invariant (p : Provider R C K) :
    (∀ r pa, CritDisjoint (Criterion.from_requirement p r pa)) ∧
    (∀ (self res : Criterion R C) r pa, CritDisjoint self →
      self.merged_with p r pa = .ok res → CritDisjoint res) ∧
    (∀ (self res : Criterion R C) cand, CritDisjoint self →
      self.excluded_of cand = .ok res → CritDisjoint res) ∧
    (∀ reqs mr (result : ResolveResult R C K), resolverResolve p reqs mr = .ok result →
      ∀ kc ∈ result.criteria, CritDisjoint kc.2) := by
  refine ⟨critDisjoint_from_requirement p, fun _ _ _ _ => critDisjoint_merged,
    fun _ _ _ => critDisjoint_excluded, ?_⟩
  intro reqs mr result h kc hkc
  unfold resolverResolve at h
  cases hr : resolutionResolve p reqs mr with
  | error e =>
    rw [hr] at h
    cases h
  | ok st =>
    rw [hr] at h
    simp only [Except.ok.injEq] at h
    subst h
    have hres : (buildResult st).criteria = st.criteria := rfl
    rw [hres] at hkc
    exact (resolutionResolve_ok hr).1.1.2 kc hkc

/-- C1: soundness of pinning — whenever resolve returns a result, every
identifier pinned in the returned mapping has a criterion in the returned
criteria map, the pinned candidate satisfies every requirement recorded in
that criterion's information, and the pinned candidate is not among the
criterion's incompatibilities. -/
theorem C1_soundness_of_pinning (p : Provider R C K) (requirements : List R)
    (maxRounds : Nat) (result : ResolveResult R C K)
    (h : resolverResolve p requirements maxRounds = .ok result) :
    ∀ k c, (k, c) ∈ result.mapping →
      ∃ crit, dictFind? result.criteria k = some crit ∧
        (∀ info ∈ crit.information, p.is_satisfied_by info.requirement c = true) ∧
        c ∉ crit.incompatibilities := by
  unfold resolverResolve at h
  cases hr : resolutionResolve p requirements maxRounds with
  | error e =>
    rw [hr] at h
    cases h
  | ok st =>
    rw [hr] at h
    simp only [Except.ok.injEq] at h
    subst h
    obtain ⟨⟨hci, hmnd, hpins⟩, hpend⟩ := resolutionResolve_ok hr
    intro k c hmem
    have hmem' : (k, c) ∈ st.mapping := by
      have hmem2 : (k, c) ∈ st.mapping.filter
          (fun kv => decide ((some kv.1) ∈ (buildGo st.criteria st.mapping st.criteria
            (DirectedGraph.empty.add none) [none]).2)) := hmem
      exact List.mem_of_mem_filter hmem2
    obtain ⟨crit, hf, hni⟩ := hpins (k, c) hmem'
    refine ⟨crit, hf, ?_, hni⟩
    have hcm : (k, crit) ∈ st.criteria := mem_of_dictFind?_eq_some hf
    have hsat : isCurrentPinSatisfying p st k crit = true := by
      cases hb : isCurrentPinSatisfying p st k crit
      · exfalso
        have hmemp : (k, crit) ∈ pendingItems p st := by
          unfold pendingItems
          exact List.mem_filter.mpr ⟨hcm, by simp [hb]⟩
        rw [hpend] at hmemp
        simp at hmemp
      · rfl
    have h2 : dictFind? st.mapping k = some c := dictFind?_eq_some_of_mem hmnd hmem'
    unfold isCurrentPinSatisfying at hsat
    simp only [h2] at hsat
    intro info hinfo
    exact List.all_eq_true.mp hsat info hinfo

/-! ### Concrete instances for the remaining claims and witnesses -/

/-- A provider with one root (requirement 1, matched by candidate 11) and no
sub-dependencies; the resolution pins 11 for key 1 in the second round. -/
def exProvider : Provider Nat Nat Nat :=
  { identify := fun r => r
  , get_preference := fun _ _ _ => 0
  , find_matches := fun r => if r = 1 then [11] else []
  , is_satisfied_by := fun r c => decide (r = 1 ∧ c = 11)
  , get_dependencies := fun _ => [] }

/-- A provider mapping every requirement to the same identifier 0, offering
candidate 5, with only requirement 10 satisfied by anything: the second root
conflicts with the first. -/
def conflictProvider : Provider Nat Nat Nat :=
  { identify := fun _ => 0
  , get_preference := fun _ _ _ => 0
  , find_matches := fun _ => [5]
  , is_satisfied_by := fun r _ => decide (r = 10)
  , get_dependencies := fun _ => [] }

/-- A second conflicting-roots provider (identifier 3, candidate 7, only
requirement 2 satisfiable). -/
def conflictProviderB : Provider Nat Nat Nat :=
  { identify := fun _ => 3
  , get_preference := fun _ _ _ => 0
  , find_matches := fun _ => [7]
  , is_satisfied_by := fun r _ => decide (r = 2)
  , get_dependencies := fun _ => [] }

/-- A provider whose find_matches is always empty. -/
def emptyMatchesProvider : Provider Nat Nat Nat :=
  { identify := fun r => r
  , get_preference := fun _ _ _ => 0
  , find_matches := fun _ => []
  , is_satisfied_by := fun _ _ => true
  , get_dependencies := fun _ => [] }

/-- A second always-empty-matches provider, for the exception-taxonomy
claim. -/
def emptyMatchesProviderB : Provider Nat Nat Nat :=
  { identify := fun r => r + 1
  , get_preference := fun _ _ _ => 0
  , find_matches := fun _ => []
  , is_satisfied_by := fun _ _ => false
  , get_dependencies := fun _ => [] }

/-- C2: when contributing the root requirements raises RequirementsConflicted,
the source evaluates `e.requirements` on an exception object that only stores
`criterion`, so resolve raises AttributeError instead of the claimed
ResolutionImpossible.  Roots 10 and 15 both identify to key 0; candidate 5
satisfies 10 but not 15, so the merge conflicts. -/
theorem C2_root_conflict_raises_attribute_error :
    resolverResolve conflictProvider [10, 15] 5 = .error .attributeError ∧
    (Criterion.from_requirement conflictProvider 10 none).merged_with
      conflictProvider 15 none =
      .error (Criterion.from_requirement conflictProvider 10 none) := by
  exact ⟨by decide, by decide⟩

/-- C3: exceptions other than ResolutionImpossible and ResolutionTooDeep
escape resolve even though every provider callback returns normally: an
AttributeError on conflicting roots (resolvers.py line 228), and a KeyError
from popitem on an empty mapping during backtracking after a root with no
matching candidates (lines 50-58 store an empty criterion, line 209 then
pops from an empty ordered dict). -/
theorem C3_foreign_exceptions_escape :
    resolverResolve conflictProviderB [2, 4] 9 = .error .attributeError ∧
    resolverResolve emptyMatchesProviderB [6] 4 = .error .keyError := by
  exact ⟨by decide, by decide⟩

/-- C8: from_requirement performs no emptiness check — with an empty
find_matches it returns a criterion with an empty candidate list instead of
raising RequirementsConflicted, and the resolution later crashes with a
KeyError instead of reporting ResolutionImpossible. -/
theorem C8_from_requirement_missing_conflict_check :
    Criterion.from_requirement emptyMatchesProvider 0 none =
      { candidates := [], information := [⟨0, none⟩], incompatibilities := [] } ∧
    resolverResolve emptyMatchesProvider [0] 5 = .error .keyError := by
  exact ⟨rfl, by decide⟩

/-- A frame that backtracking pops immediately. -/
def btFrameA : State Nat Nat Nat := ⟨[], []⟩

/-- A criterion whose only candidate is 7: excluding 7 conflicts.  Its single
requirement is 2. -/
def btConflicting : Criterion Nat Nat := ⟨[7], [⟨2, none⟩], []⟩

/-- A frame pinning 7 at key 0 under the conflicting criterion. -/
def btFrameB : State Nat Nat Nat := ⟨[(0, 7)], [(0, btConflicting)]⟩

/-- The criterion that triggers the backtrack; its single requirement is 1. -/
def btTrigger : Criterion Nat Nat := ⟨[9], [⟨1, none⟩], []⟩

/-- C4 counterexample: backtracking from trigger btTrigger pops btFrameA, the
exclusion of 7 from btConflicting raises RequirementsConflicted, the loop
continues, pops btFrameB and, the stack now empty, reports
ResolutionImpossible with the requirements of the ORIGINAL trigger, [1] —
the loop variable is not reassigned on the conflict path (resolvers.py lines
212-213: the except clause is a bare continue) — whereas the claim, which
says the conflicted criterion becomes the new trigger, predicts payload [2]. -/
theorem C4_backtrack_counterexample :
    backtrack [btFrameA, btFrameB] btTrigger = .error (.resolutionImpossible [1]) ∧
    btConflicting.excluded_of 7 = .error btConflicting ∧
    btConflicting.information.map (fun i => i.requirement) = [2] ∧
    btTrigger.information.map (fun i => i.requirement) = [1] ∧
    (backtrack [btFrameA, btFrameB] btTrigger = .error (.resolutionImpossible [2])) = False := by
  refine ⟨by decide, by decide, by decide, by decide, eq_false (by decide)⟩

/-- C4 (amended): backtrack pops exactly one state frame per loop iteration;
if the state stack becomes empty it raises ResolutionImpossible carrying the
requirements of the ORIGINAL trigger criterion; otherwise it removes the
most-recently-inserted entry (K, C) from the now-current frame's mapping,
replaces that frame's criteria[K] with criteria[K].excluded_of(C) and
returns; if that exclusion raises RequirementsConflicted, the loop continues
one frame deeper with the trigger criterion unchanged. -/
theorem C4_backtrack_amended (f st : State R C K) (deeper : List (State R C K))
    (criterion crit narrowed : Criterion R C) (name : K) (cand : C) (m : List (K × C)) :
    (backtrack [f] criterion =
      .error (.resolutionImpossible (criterion.information.map (fun i => i.requirement)))) ∧
    (st.mapping = m ++ [(name, cand)] →
      dictFind? st.criteria name = some crit →
      crit.excluded_of cand = .ok narrowed →
      backtrack (f :: st :: deeper) criterion =
        .ok (⟨m, dictInsert st.criteria name narrowed⟩ :: deeper)) ∧
    (st.mapping = m ++ [(name, cand)] →
      dictFind? st.criteria name = some crit →
      crit.excluded_of cand = .error crit →
      backtrack (f :: st :: deeper) criterion = backtrackGo deeper criterion) := by
  refine ⟨rfl, ?_, ?_⟩
  · intro hm hfind hexc
    have hpop : odictPopLast st.mapping = some ((name, cand), m) := by
      rw [hm]
      exact odictPopLast_append m (name, cand)
    show backtrackGo (st :: deeper) criterion = _
    simp only [backtrackGo, hpop, hfind, hexc]
  · intro hm hfind hexc
    have hpop : odictPopLast st.mapping = some ((name, cand), m) := by
      rw [hm]
      exact odictPopLast_append m (name, cand)
    show backtrackGo (st :: deeper) criterion = _
    simp only [backtrackGo, hpop, hfind, hexc]

/-- C10: resolving an empty collection of root requirements with any provider
and any positive round budget succeeds in the first round with an empty
mapping, an empty criteria map, and a graph holding exactly the root marker
and no edges. -/
theorem C10_empty_roots (p : Provider R C K) (maxRounds : Nat) (h : 1 ≤ maxRounds) :
    resolverResolve p ([] : List R) maxRounds =
      .ok { mapping := [], graph := { vertices := [none], edges := [] }, criteria := [] } := by
  obtain ⟨m, rfl⟩ : ∃ m, maxRounds = m + 1 := ⟨maxRounds - 1, by omega⟩
  simp [resolverResolve, resolutionResolve, contributeRoots, resolveRounds, pendingItems,
    buildResult, buildGo, DirectedGraph.empty, DirectedGraph.add]

/-- C10 witness: the empty-roots resolution at a concrete provider and round
budget 1. -/
theorem C10_empty_roots_witness :
    resolverResolve exProvider ([] : List Nat) 1 =
      .ok { mapping := [], graph := { vertices := [none], edges := [] }, criteria := [] } :=
  C10_empty_roots exProvider 1 (by decide)

/-- The concrete outcome of resolving root requirement 1 with exProvider. -/
def exResult : ResolveResult Nat Nat Nat :=
  { mapping := [(1, 11)]
  , graph := { vertices := [none, some 1], edges := [(none, some 1)] }
  , criteria := [(1, { candidates := [11], information := [⟨1, none⟩], incompatibilities := [] })] }

/-- C1 witness: the soundness statement instantiated at the concrete run of
exProvider on root [1], whose result pins candidate 11 at key 1. -/
theorem C1_soundness_of_pinning_witness :
    ∃ crit, dictFind? exResult.criteria 1 = some crit ∧
      (∀ info ∈ crit.information, exProvider.is_satisfied_by info.requirement 11 = true) ∧
      11 ∉ crit.incompatibilities :=
  C1_soundness_of_pinning exProvider [1] 3 exResult (by decide) 1 11 (by decide)
